import Mathlib

/-!
Verification of the data-handling core of `f1_dashboard.py` (F1-Strategy-Hub).

The development shallowly embeds the script's behaviour:

* Column names are modelled as lists of character codes (`Name`), so that the
  header normalization `columns.str.strip().str.lower()` becomes an executable
  function on lists of naturals.
* CSV cell values are modelled by `Cell`: a parsed rational number, an
  unparseable text value, or a missing value (pandas `NaN`).  `pd.to_numeric(-,
  errors='coerce')` becomes `toNumericCell`, which is total: per-cell parse
  failures become `Cell.na`, never an error.
* A loaded dataframe is modelled column-oriented (`Table`), matching pandas:
  an ordered list of (name, column) pairs.  Loader functions (`load_circuits`,
  `load_races`, `load_pit_stops`, `load_results`, `load_qualifying`) translate
  the corresponding `@st.cache_data` functions line by line; `Option Table`
  models the `try/except: return None` wrapper (`none` = unloadable file,
  e.g. a required column is absent and indexing it would raise).
* The dashboard part (season filter, pit-stop outlier filter, top-N
  selections, section gating) is modelled over structured rows, i.e. the
  well-typed dataframes that the loaders produce on schema-conforming files.

Numbers are rationals (`ℚ`): every comparison and arithmetic operation the
script performs on these columns (ordering, counting, summing, division by
1000) is exact, so `ℚ` is a faithful stand-in for the float columns.
-/

/-- A column name / string value: the list of its character codes. -/
abbrev Name := List Nat

/-- Character codes Python's `str.strip` removes (space, tab, LF, CR, VT, FF). -/
def isSpaceCode (n : Nat) : Bool :=
  n = 32 || n = 9 || n = 10 || n = 13 || n = 11 || n = 12

/-- Python `str.strip()`: drop leading and trailing whitespace. -/
def stripCodes (s : List Nat) : List Nat :=
  ((s.dropWhile isSpaceCode).reverse.dropWhile isSpaceCode).reverse

/-- ASCII lower-casing of one character code (`str.lower()` on the header
characters the dashboard's files use). -/
def lowerCode (n : Nat) : Nat :=
  if 65 ≤ n ∧ n ≤ 90 then n + 32 else n

/-- Python `str.lower()` on a whole name. -/
def lowerCodes (s : List Nat) : List Nat := s.map lowerCode

/-- Header normalization applied to every loaded file:
`columns.str.strip().str.lower()` (f1_dashboard.py line 49 and analogues). -/
def normalizeName (s : Name) : Name := lowerCodes (stripCodes s)

/-- Build a `Name` from a string literal (for the concrete column names). -/
def strName (s : String) : Name := s.data.map Char.toNat

def nm_circuitid : Name := strName "circuitid"
def nm_s : Name := strName "s"
def nm_raceid : Name := strName "raceid"
def nm_lat : Name := strName "lat"
def nm_lng : Name := strName "lng"
def nm_date : Name := strName "date"
def nm_year : Name := strName "year"
def nm_duration : Name := strName "duration"
def nm_milliseconds : Name := strName "milliseconds"
def nm_lap : Name := strName "lap"
def nm_stop : Name := strName "stop"
def nm_position : Name := strName "position"
def nm_points : Name := strName "points"
def nm_grid : Name := strName "grid"

/-- A CSV cell after `pd.read_csv`: a parsed number, a non-numeric string, or
a missing value (`NaN`). -/
inductive Cell where
  | num (q : ℚ)
  | str (s : Name)
  | na
  deriving DecidableEq, Repr

/-- Model of `pd.to_numeric(-, errors='coerce')` on one cell: numbers stay, every
unparseable value and every missing value becomes missing.  Total: a parse
failure never raises. -/
def toNumericCell : Cell → Cell
  | .num q => .num q
  | .str _ => .na
  | .na => .na

/-- Model of `.fillna(0)` on one cell (used for the `points` column, line 96). -/
def fillnaZero : Cell → Cell
  | .na => .num 0
  | c => c

/-- Model of `pit_stops['milliseconds'] / 1000` on one (already coerced) cell
(line 75); division of a missing value stays missing. -/
def cellDiv1000 : Cell → Cell
  | .num q => .num (q / 1000)
  | _ => .na

/-- Model of `pd.to_datetime(-, errors='coerce')` (line 61).  The dashboard never reads
the parsed date values, only that the coercion is total and that the `date`
column exists, so the cell transformation is modelled as the identity. -/
def toDatetimeCell (c : Cell) : Cell := c

-- ### Normalization is idempotent (groundwork for claim C8)

theorem lowerCode_idem (n : Nat) : lowerCode (lowerCode n) = lowerCode n := by
  by_cases h : 65 ≤ n ∧ n ≤ 90
  · have h2 : ¬(65 ≤ n + 32 ∧ n + 32 ≤ 90) := by omega
    simp [lowerCode, h, h2]
    omega
  · simp [lowerCode, h]

theorem isSpaceCode_lowerCode (n : Nat) :
    isSpaceCode (lowerCode n) = isSpaceCode n := by
  by_cases h : 65 ≤ n ∧ n ≤ 90
  · have h1 : isSpaceCode (n + 32) = false := by
      simp only [isSpaceCode, Bool.or_eq_false_iff, decide_eq_false_iff_not]
      omega
    have h2 : isSpaceCode n = false := by
      simp only [isSpaceCode, Bool.or_eq_false_iff, decide_eq_false_iff_not]
      omega
    simp [lowerCode, h, h1, h2]
  · simp [lowerCode, h]

theorem dropWhile_idem {α : Type} (p : α → Bool) (l : List α) :
    (l.dropWhile p).dropWhile p = l.dropWhile p := by
  induction l with
  | nil => rfl
  | cons a l ih =>
    by_cases h : p a
    · simp [List.dropWhile_cons, h, ih]
    · simp [List.dropWhile_cons, h]

theorem dropWhile_eq_self_head {α : Type} (p : α → Bool) (x : α) (xs : List α)
    (h : List.dropWhile p (x :: xs) = x :: xs) : p x = false := by
  cases hx : p x with
  | false => rfl
  | true =>
    rw [List.dropWhile_cons, if_pos hx] at h
    have hlen := congrArg List.length h
    have hle : (List.dropWhile p xs).length ≤ xs.length :=
      List.Sublist.length_le (List.dropWhile_sublist p)
    simp only [List.length_cons] at hlen
    omega

theorem dropWhile_suffix_ex {α : Type} (p : α → Bool) (l : List α) :
    ∃ t, t ++ l.dropWhile p = l := by
  induction l with
  | nil => exact ⟨[], rfl⟩
  | cons a l ih =>
    by_cases h : p a
    · obtain ⟨t, ht⟩ := ih
      exact ⟨a :: t, by simp [List.dropWhile_cons, h, ht]⟩
    · exact ⟨[], by simp [List.dropWhile_cons, h]⟩

theorem dropWhile_of_dropWhile_prefix {α : Type} (p : α → Bool)
    (m t : List α) (hm : m.dropWhile p = m) (ht : ∃ w, t ++ w = m) :
    t.dropWhile p = t := by
  obtain ⟨w, hw⟩ := ht
  cases t with
  | nil => rfl
  | cons x xs =>
    have hx : p x = false := by
      cases m with
      | nil => simp at hw
      | cons y ys =>
        have hxy : x = y := by
          have := congrArg List.head? hw
          simpa using this
        subst hxy
        exact dropWhile_eq_self_head p x ys hm
    simp [List.dropWhile_cons, hx]

theorem stripCodes_idem (s : List Nat) :
    stripCodes (stripCodes s) = stripCodes s := by
  unfold stripCodes
  set u := s.dropWhile isSpaceCode with hu
  set v := (u.reverse.dropWhile isSpaceCode).reverse with hv
  have hvrev : v.reverse = u.reverse.dropWhile isSpaceCode := by
    rw [hv, List.reverse_reverse]
  have h2 : v.reverse.dropWhile isSpaceCode = v.reverse := by
    rw [hvrev]; exact dropWhile_idem _ _
  have hpre : ∃ w, v ++ w = u := by
    obtain ⟨t, ht⟩ := dropWhile_suffix_ex isSpaceCode u.reverse
    refine ⟨t.reverse, ?_⟩
    have := congrArg List.reverse ht
    rw [List.reverse_append] at this
    rw [← hvrev] at this
    simpa using this
  have hufix : u.dropWhile isSpaceCode = u := by
    rw [hu]; exact dropWhile_idem _ _
  have h1 : v.dropWhile isSpaceCode = v :=
    dropWhile_of_dropWhile_prefix isSpaceCode u v hufix hpre
  rw [h1, h2, List.reverse_reverse]

theorem stripCodes_lowerCodes (t : List Nat) :
    stripCodes (lowerCodes t) = lowerCodes (stripCodes t) := by
  have hp : (isSpaceCode ∘ lowerCode) = isSpaceCode :=
    funext fun n => isSpaceCode_lowerCode n
  unfold stripCodes lowerCodes
  rw [List.dropWhile_map, hp, ← List.map_reverse, List.dropWhile_map, hp,
    ← List.map_reverse]

theorem lowerCodes_idem (t : List Nat) :
    lowerCodes (lowerCodes t) = lowerCodes t := by
  unfold lowerCodes
  rw [List.map_map]
  exact List.map_congr_left fun n _ => lowerCode_idem n

theorem normalizeName_idem (s : Name) :
    normalizeName (normalizeName s) = normalizeName s := by
  unfold normalizeName
  rw [stripCodes_lowerCodes, stripCodes_idem, lowerCodes_idem]

-- ### Column-oriented dataframe model

/-- A loaded dataframe, column-oriented as in pandas: an ordered list of
(column name, column values) pairs. -/
structure Table where
  cols : List (Name × List Cell)
  deriving DecidableEq, Repr

/-- Model of `df.columns`, in order. -/
def Table.headers (t : Table) : List Name := t.cols.map Prod.fst

/-- Model of `name in df.columns`. -/
def Table.hasCol (t : Table) (c : Name) : Bool :=
  t.cols.any (fun p => decide (p.1 = c))

/-- Model of `len(df)`: the number of rows (length of the first column; `0` for a
table with no columns). -/
def Table.nRows (t : Table) : Nat :=
  match t.cols with
  | [] => 0
  | p :: _ => p.2.length

/-- Model of `df[c]` as a column of cells (`none` when the column is absent, where
pandas would raise `KeyError`).  With duplicate headers pandas returns a
sub-frame; the loaders are only ever run on CSV headers, which
`pd.read_csv` de-duplicates, so taking the first match is faithful. -/
def Table.getColumn (t : Table) (c : Name) : Option (List Cell) :=
  (t.cols.find? (fun p => decide (p.1 = c))).map Prod.snd

/-- Replace the values of column `c` (used for `df[c] = f(df[c])`). -/
def updateCol (cols : List (Name × List Cell)) (c : Name)
    (f : List Cell → List Cell) : List (Name × List Cell) :=
  cols.map (fun p => if p.1 = c then (p.1, f p.2) else p)

/-- Model of `df[c] = pd.to_numeric(df[c], errors='coerce')`, column assumed present. -/
def Table.numeric (t : Table) (c : Name) : Table :=
  ⟨updateCol t.cols c (fun col => col.map toNumericCell)⟩

/-- Model of `df[c] = pd.to_numeric(df[c], errors='coerce')`; `none` models the
`KeyError` (caught by the loader's `except`) when the column is absent. -/
def Table.numericOpt (t : Table) (c : Name) : Option Table :=
  if t.hasCol c then some (t.numeric c) else none

/-- Number of missing values in a column (`col.isna().sum()`). -/
def naCount (col : List Cell) : Nat :=
  (col.filter (fun x => decide (x = Cell.na))).length

/-- Model of `df[c].isna().sum()` (0 when the column is absent; only used guarded). -/
def Table.colNaCount (t : Table) (c : Name) : Nat :=
  match t.getColumn c with
  | some col => naCount col
  | none => 0

/-- Model of `df[c] = vals`: overwrite an existing column or append a new one. -/
def Table.setColVals (t : Table) (c : Name) (vals : List Cell) : Table :=
  if t.hasCol c then ⟨updateCol t.cols c (fun _ => vals)⟩
  else ⟨t.cols ++ [(c, vals)]⟩

/-- Row-keep mask of `df.dropna(subset=cs)`: row `i` is kept when none of the
subset columns is missing at `i`. -/
def keepMask (t : Table) (cs : List Name) : List Bool :=
  (List.range t.nRows).map (fun i =>
    cs.all (fun c =>
      match t.getColumn c with
      | some col => decide (col.getD i Cell.na ≠ Cell.na)
      | none => true))

/-- Keep the elements of `l` whose mask entry is `true`. -/
def filterByMask {α : Type} (l : List α) (m : List Bool) : List α :=
  (l.zip m).filterMap (fun ab => if ab.2 then some ab.1 else none)

/-- Model of `df.dropna(subset=cs)`; `none` models the `KeyError` when a subset column
is absent. -/
def Table.dropnaSubset (t : Table) (cs : List Name) : Option Table :=
  if cs.all t.hasCol then
    some ⟨t.cols.map (fun p => (p.1, filterByMask p.2 (keepMask t cs)))⟩
  else none

/-- Model of `df.columns = df.columns.str.strip().str.lower()`. -/
def normalizeTable (t : Table) : Table :=
  ⟨t.cols.map (fun p => (normalizeName p.1, p.2))⟩

-- ### The loaders (f1_dashboard.py lines 45-132)

/-- Translation of `load_circuits` (lines 46-54): normalize headers, repair the degraded
first header when it reads exactly `'s'`, drop rows without coordinates.
When the headers are empty, `circuits.columns[0]` raises in Python; here the
rename test fails and `dropna` then yields `none`, so the loader returns
`none` in both accounts. -/
def load_circuits (t : Table) : Option Table :=
  let t1 := normalizeTable t
  let t2 : Table :=
    if t1.headers.head? = some nm_s then
      ⟨match t1.cols with
        | [] => []
        | p :: ps => (nm_circuitid, p.2) :: ps⟩
    else t1
  t2.dropnaSubset [nm_lat, nm_lng]

/-- Translation of `load_races` (lines 57-63): normalize headers, coerce the `date` column
(`errors='coerce'`, never raising per-row). -/
def load_races (t : Table) : Option Table :=
  let t1 := normalizeTable t
  if t1.hasCol nm_date then
    some ⟨updateCol t1.cols nm_date (fun col => col.map toDatetimeCell)⟩
  else none

/-- Lines 69-75 of `load_pit_stops`: normalize headers, coerce `duration`
when present, and when `milliseconds` is present coerce it and derive
`duration = milliseconds / 1000` when `duration` is absent or more than half
of its coerced values are missing (`isna().sum() > len * 0.5`). -/
def pitPrepare (t : Table) : Table :=
  let t1 := normalizeTable t
  let t2 := if t1.hasCol nm_duration then t1.numeric nm_duration else t1
  if t2.hasCol nm_milliseconds then
    let t3 := t2.numeric nm_milliseconds
    if ¬ t3.hasCol nm_duration = true ∨ 2 * t3.colNaCount nm_duration > t3.nRows then
      match t3.getColumn nm_milliseconds with
      | some mcol => t3.setColVals nm_duration (mcol.map cellDiv1000)
      | none => t3
    else t3
  else t2

/-- Lines 76-77 of `load_pit_stops`: unguarded coercion of `lap` and `stop`
(a missing column raises and the loader returns `None`). -/
def pitCoerced (t : Table) : Option Table := do
  let t4 ← (pitPrepare t).numericOpt nm_lap
  t4.numericOpt nm_stop

/-- Translation of `load_pit_stops` (lines 66-80): prepare/coerce, then
`dropna(subset=['duration'])`. -/
def load_pit_stops (t : Table) : Option Table := do
  let t5 ← pitCoerced t
  t5.dropnaSubset [nm_duration]

/-- Line 96 of `load_results`:
`results['points'] = pd.to_numeric(results['points'], errors='coerce').fillna(0)`
(a missing `points` column raises and the loader returns `None`). -/
def pointsCoerce (t : Table) : Option Table :=
  if t.hasCol nm_points then
    some ⟨updateCol t.cols nm_points
      (fun col => col.map (fun x => fillnaZero (toNumericCell x)))⟩
  else none

/-- Translation of `load_results` (lines 91-99): coerce `position`, coerce `points` then
`fillna(0)`, and coerce `results.get('grid', 0)` (an absent `grid` column
becomes a column of zeros). -/
def load_results (t : Table) : Option Table := do
  let t2 ← (normalizeTable t).numericOpt nm_position
  let t3 ← pointsCoerce t2
  let t4 : Table :=
    if t3.hasCol nm_grid then t3.numeric nm_grid
    else t3.setColVals nm_grid (List.replicate t3.nRows (Cell.num 0))
  return t4

/-- Translation of `load_qualifying` (lines 102-108): normalize headers, coerce `position`. -/
def load_qualifying (t : Table) : Option Table :=
  (normalizeTable t).numericOpt nm_position

-- ### Basic lemmas about the table operations

theorem headers_normalizeTable (t : Table) :
    (normalizeTable t).headers = t.headers.map normalizeName := by
  simp [normalizeTable, Table.headers, List.map_map, Function.comp]

theorem headers_updateCol (cols : List (Name × List Cell)) (c : Name)
    (f : List Cell → List Cell) :
    (Table.mk (updateCol cols c f)).headers = (Table.mk cols).headers := by
  simp only [Table.headers, updateCol, List.map_map]
  apply List.map_congr_left
  intro p _
  by_cases h : p.1 = c <;> simp [h]

theorem hasCol_updateCol (cols : List (Name × List Cell)) (c c' : Name)
    (f : List Cell → List Cell) :
    (Table.mk (updateCol cols c f)).hasCol c' = (Table.mk cols).hasCol c' := by
  simp only [Table.hasCol, updateCol, List.any_map]
  congr 1
  funext p
  by_cases h : p.1 = c <;> simp [h]

theorem find?_updateCol_self (cols : List (Name × List Cell)) (c : Name)
    (f : List Cell → List Cell) :
    (updateCol cols c f).find? (fun p => decide (p.1 = c)) =
      (cols.find? (fun p => decide (p.1 = c))).map (fun p => (p.1, f p.2)) := by
  induction cols with
  | nil => rfl
  | cons p ps ih =>
    simp only [updateCol, List.map_cons] at ih ⊢
    by_cases h : p.1 = c
    · rw [if_pos h, List.find?_cons_of_pos _ (by simpa using h),
        List.find?_cons_of_pos _ (by simpa using h)]
      rfl
    · rw [if_neg h, List.find?_cons_of_neg _ (by simpa using h),
        List.find?_cons_of_neg _ (by simpa using h)]
      exact ih

theorem find?_updateCol_ne (cols : List (Name × List Cell)) (c c' : Name)
    (f : List Cell → List Cell) (hne : c' ≠ c) :
    (updateCol cols c f).find? (fun p => decide (p.1 = c')) =
      cols.find? (fun p => decide (p.1 = c')) := by
  induction cols with
  | nil => rfl
  | cons p ps ih =>
    simp only [updateCol, List.map_cons] at ih ⊢
    by_cases h : p.1 = c
    · have h' : ¬ p.1 = c' := by rw [h]; exact fun hc => hne hc.symm
      rw [if_pos h, List.find?_cons_of_neg _ (by simpa using h'),
        List.find?_cons_of_neg _ (by simpa using h')]
      exact ih
    · rw [if_neg h]
      by_cases h2 : p.1 = c'
      · rw [List.find?_cons_of_pos _ (by simpa using h2),
          List.find?_cons_of_pos _ (by simpa using h2)]
      · rw [List.find?_cons_of_neg _ (by simpa using h2),
          List.find?_cons_of_neg _ (by simpa using h2)]
        exact ih

theorem getColumn_numeric_self (t : Table) (c : Name) :
    (t.numeric c).getColumn c = (t.getColumn c).map (List.map toNumericCell) := by
  unfold Table.numeric Table.getColumn
  rw [find?_updateCol_self]
  cases t.cols.find? (fun p => decide (p.1 = c)) <;> rfl

theorem getColumn_numeric_ne (t : Table) (c c' : Name) (hne : c' ≠ c) :
    (t.numeric c).getColumn c' = t.getColumn c' := by
  unfold Table.numeric Table.getColumn
  rw [find?_updateCol_ne _ _ _ _ hne]

theorem hasCol_numeric (t : Table) (c c' : Name) :
    (t.numeric c).hasCol c' = t.hasCol c' := by
  unfold Table.numeric
  cases t with
  | mk cols => exact hasCol_updateCol cols c c' _

theorem headers_numeric (t : Table) (c : Name) :
    (t.numeric c).headers = t.headers := by
  unfold Table.numeric
  cases t with
  | mk cols => exact headers_updateCol cols c _

theorem nRows_updateCol_map (cols : List (Name × List Cell)) (c : Name)
    (g : Cell → Cell) :
    (Table.mk (updateCol cols c (List.map g))).nRows = (Table.mk cols).nRows := by
  cases cols with
  | nil => rfl
  | cons p ps =>
    simp only [updateCol, List.map_cons, Table.nRows]
    by_cases h : p.1 = c <;> simp [h]

theorem nRows_numeric (t : Table) (c : Name) : (t.numeric c).nRows = t.nRows := by
  unfold Table.numeric
  cases t with
  | mk cols => exact nRows_updateCol_map cols c toNumericCell

theorem find?_append_of_none {α : Type} (p : α → Bool) (l r : List α)
    (h : l.find? p = none) : (l ++ r).find? p = r.find? p := by
  induction l with
  | nil => rfl
  | cons a l ih =>
    by_cases ha : p a
    · rw [List.find?_cons_of_pos _ ha] at h
      cases h
    · rw [List.find?_cons_of_neg _ ha] at h
      rw [List.cons_append, List.find?_cons_of_neg _ ha]
      exact ih h

theorem hasCol_iff_exists (t : Table) (c : Name) :
    t.hasCol c = true ↔ ∃ p ∈ t.cols, p.1 = c := by
  unfold Table.hasCol
  rw [List.any_eq_true]
  constructor
  · rintro ⟨p, hp, hpc⟩
    exact ⟨p, hp, by simpa using hpc⟩
  · rintro ⟨p, hp, hpc⟩
    exact ⟨p, hp, by simpa using hpc⟩

theorem getColumn_setColVals (t : Table) (c : Name) (vals : List Cell) :
    (t.setColVals c vals).getColumn c = some vals := by
  unfold Table.setColVals
  by_cases h : t.hasCol c = true
  · rw [if_pos h]
    unfold Table.getColumn
    rw [find?_updateCol_self]
    have hsome : (t.cols.find? (fun p => decide (p.1 = c))).isSome := by
      rw [List.find?_isSome]
      obtain ⟨p, hp, hpc⟩ := (hasCol_iff_exists t c).mp h
      exact ⟨p, hp, by simpa using hpc⟩
    obtain ⟨p, hp⟩ := Option.isSome_iff_exists.mp hsome
    rw [hp]
    rfl
  · rw [if_neg h]
    unfold Table.getColumn
    rw [find?_append_of_none]
    · simp
    · rw [List.find?_eq_none]
      intro p hp
      simp only [decide_eq_true_eq]
      intro hc
      exact h ((hasCol_iff_exists t c).mpr ⟨p, hp, hc⟩)

theorem headers_head?_setColVals (t : Table) (c : Name) (vals : List Cell)
    (hne : t.cols ≠ []) :
    (t.setColVals c vals).headers.head? = t.headers.head? := by
  unfold Table.setColVals
  by_cases h : t.hasCol c = true
  · rw [if_pos h]
    cases t with
    | mk cols => rw [headers_updateCol]
  · rw [if_neg h]
    cases t with
    | mk cols =>
      cases cols with
      | nil => exact absurd rfl hne
      | cons p ps => simp [Table.headers]

theorem headers_dropnaSubset (t t' : Table) (cs : List Name)
    (h : t.dropnaSubset cs = some t') : t'.headers = t.headers := by
  unfold Table.dropnaSubset at h
  by_cases hc : cs.all t.hasCol = true
  · rw [if_pos hc] at h
    cases h
    simp [Table.headers, List.map_map, Function.comp]
  · rw [if_neg hc] at h
    cases h

theorem getColumn_setColVals_ne (t : Table) (c c' : Name) (vals : List Cell)
    (hne : c' ≠ c) :
    (t.setColVals c vals).getColumn c' = t.getColumn c' := by
  unfold Table.setColVals
  by_cases h : t.hasCol c = true
  · rw [if_pos h]
    unfold Table.getColumn
    rw [find?_updateCol_ne _ _ _ _ hne]
  · rw [if_neg h]
    unfold Table.getColumn
    rw [List.find?_append]
    have : List.find? (fun p => decide (p.1 = c')) [(c, vals)] = none := by
      simp [hne.symm]
    rw [this]
    simp

theorem getColumn_isSome_of_hasCol (t : Table) (c : Name)
    (h : t.hasCol c = true) : ∃ col, t.getColumn c = some col := by
  unfold Table.getColumn
  have hsome : (t.cols.find? (fun p => decide (p.1 = c))).isSome := by
    rw [List.find?_isSome]
    obtain ⟨p, hp, hpc⟩ := (hasCol_iff_exists t c).mp h
    exact ⟨p, hp, by simpa using hpc⟩
  obtain ⟨p, hp⟩ := Option.isSome_iff_exists.mp hsome
  exact ⟨p.2, by rw [hp]; rfl⟩

/-- C8: header normalization (trimming whitespace then lower-casing every
column name) is idempotent: applying `columns.str.strip().str.lower()` to an
already-normalized header list yields the same list, both on a raw header
list and on a whole table. -/
theorem C8_normalization_idempotent (hs : List Name) (t : Table) :
    (hs.map normalizeName).map normalizeName = hs.map normalizeName
    ∧ normalizeTable (normalizeTable t) = normalizeTable t := by
  constructor
  · rw [List.map_map]
    exact List.map_congr_left fun s _ => normalizeName_idem s
  · unfold normalizeTable
    simp only [List.map_map]
    congr 1
    apply List.map_congr_left
    intro p _
    simp [Function.comp, normalizeName_idem]

/-- C5: during pit-stop ingestion (with the milliseconds column present, the
source the claim derives from), the seconds-based `duration` column equals
`milliseconds / 1000` exactly when the primary `duration` column is absent or
strictly more than half of its rows are missing after numeric coercion, and
otherwise equals the coerced primary `duration` column. -/
theorem C5_duration_derivation (t : Table)
    (hms : (normalizeTable t).hasCol nm_milliseconds = true) :
    ((¬ (normalizeTable t).hasCol nm_duration = true
        ∨ 2 * naCount ((((normalizeTable t).getColumn nm_duration).getD []).map toNumericCell)
            > (normalizeTable t).nRows) →
      ∀ mcol, (normalizeTable t).getColumn nm_milliseconds = some mcol →
        (pitPrepare t).getColumn nm_duration
          = some ((mcol.map toNumericCell).map cellDiv1000))
    ∧ ((normalizeTable t).hasCol nm_duration = true →
      2 * naCount ((((normalizeTable t).getColumn nm_duration).getD []).map toNumericCell)
          ≤ (normalizeTable t).nRows →
      ∀ dcol, (normalizeTable t).getColumn nm_duration = some dcol →
        (pitPrepare t).getColumn nm_duration = some (dcol.map toNumericCell)) := by
  have hne_md : nm_milliseconds ≠ nm_duration := by decide
  have hne_dm : nm_duration ≠ nm_milliseconds := by decide
  constructor
  · intro hcond mcol hmcol
    by_cases hdur : (normalizeTable t).hasCol nm_duration = true
    · obtain ⟨dcol, hdcol⟩ := getColumn_isSome_of_hasCol _ _ hdur
      have hbig : 2 * naCount (dcol.map toNumericCell) > (normalizeTable t).nRows := by
        rcases hcond with h | h
        · exact absurd hdur h
        · rw [hdcol] at h
          exact h
      have hms2 : ((normalizeTable t).numeric nm_duration).hasCol nm_milliseconds = true := by
        rw [hasCol_numeric]; exact hms
      have hcol3 : ((((normalizeTable t).numeric nm_duration).numeric
          nm_milliseconds).getColumn nm_milliseconds) = some (mcol.map toNumericCell) := by
        rw [getColumn_numeric_self, getColumn_numeric_ne _ _ _ hne_md, hmcol]
        rfl
      have hcnt : ((((normalizeTable t).numeric nm_duration).numeric
          nm_milliseconds).colNaCount nm_duration) = naCount (dcol.map toNumericCell) := by
        unfold Table.colNaCount
        rw [getColumn_numeric_ne _ _ _ hne_dm, getColumn_numeric_self, hdcol]
        rfl
      have hrows : ((((normalizeTable t).numeric nm_duration).numeric
          nm_milliseconds).nRows) = (normalizeTable t).nRows := by
        rw [nRows_numeric, nRows_numeric]
      simp only [pitPrepare]
      rw [if_pos hdur, if_pos hms2]
      rw [if_pos (Or.inr (show 2 * ((((normalizeTable t).numeric nm_duration).numeric
          nm_milliseconds).colNaCount nm_duration)
          > ((((normalizeTable t).numeric nm_duration).numeric nm_milliseconds).nRows) by
        rw [hcnt, hrows]; exact hbig))]
      rw [hcol3, getColumn_setColVals]
    · have hdurF : (normalizeTable t).hasCol nm_duration = false := by
        simpa using hdur
      have hcol3 : (((normalizeTable t).numeric nm_milliseconds).getColumn
          nm_milliseconds) = some (mcol.map toNumericCell) := by
        rw [getColumn_numeric_self, hmcol]
        rfl
      have hdur3F : ((normalizeTable t).numeric nm_milliseconds).hasCol nm_duration = false := by
        rw [hasCol_numeric]; exact hdurF
      simp only [pitPrepare]
      rw [if_neg (show ¬ (normalizeTable t).hasCol nm_duration = true by simp [hdurF])]
      rw [if_pos hms]
      rw [if_pos (Or.inl (show ¬ ((normalizeTable t).numeric nm_milliseconds).hasCol
          nm_duration = true by simp [hdur3F]))]
      rw [hcol3, getColumn_setColVals]
  · intro hdur hsmall dcol hdcol
    have hms2 : ((normalizeTable t).numeric nm_duration).hasCol nm_milliseconds = true := by
      rw [hasCol_numeric]; exact hms
    have hdur3 : ((((normalizeTable t).numeric nm_duration).numeric nm_milliseconds).hasCol
        nm_duration) = true := by
      rw [hasCol_numeric, hasCol_numeric]; exact hdur
    have hcnt : ((((normalizeTable t).numeric nm_duration).numeric
        nm_milliseconds).colNaCount nm_duration) = naCount (dcol.map toNumericCell) := by
      unfold Table.colNaCount
      rw [getColumn_numeric_ne _ _ _ hne_dm, getColumn_numeric_self, hdcol]
      rfl
    have hrows : ((((normalizeTable t).numeric nm_duration).numeric
        nm_milliseconds).nRows) = (normalizeTable t).nRows := by
      rw [nRows_numeric, nRows_numeric]
    have hsmall' : 2 * naCount (dcol.map toNumericCell) ≤ (normalizeTable t).nRows := by
      rw [hdcol] at hsmall
      exact hsmall
    simp only [pitPrepare]
    rw [if_pos hdur, if_pos hms2]
    rw [if_neg (by
      push_neg
      refine ⟨by simpa using hdur3, ?_⟩
      rw [hcnt, hrows]
      omega)]
    rw [getColumn_numeric_ne _ _ _ hne_dm, getColumn_numeric_self, hdcol]
    rfl

-- ### Destructuring the loaders

theorem numericOpt_eq_some (t t' : Table) (c : Name)
    (h : t.numericOpt c = some t') : t.hasCol c = true ∧ t' = t.numeric c := by
  unfold Table.numericOpt at h
  by_cases hc : t.hasCol c = true
  · rw [if_pos hc] at h
    exact ⟨hc, (Option.some_inj.mp h).symm⟩
  · rw [if_neg hc] at h
    cases h

theorem pointsCoerce_eq_some (t t' : Table) (h : pointsCoerce t = some t') :
    t.hasCol nm_points = true
    ∧ t' = ⟨updateCol t.cols nm_points
        (fun col => col.map (fun x => fillnaZero (toNumericCell x)))⟩ := by
  unfold pointsCoerce at h
  by_cases hc : t.hasCol nm_points = true
  · rw [if_pos hc] at h
    exact ⟨hc, (Option.some_inj.mp h).symm⟩
  · rw [if_neg hc] at h
    cases h

theorem load_results_destruct (t t' : Table) (h : load_results t = some t') :
    ∃ t2 t3, (normalizeTable t).numericOpt nm_position = some t2
      ∧ pointsCoerce t2 = some t3
      ∧ t' = (if t3.hasCol nm_grid then t3.numeric nm_grid
              else t3.setColVals nm_grid (List.replicate t3.nRows (Cell.num 0))) := by
  unfold load_results at h
  cases hpos : (normalizeTable t).numericOpt nm_position with
  | none => rw [hpos] at h; cases h
  | some t2 =>
    rw [hpos] at h
    simp only [Option.bind_eq_bind, Option.some_bind] at h
    cases hpts : pointsCoerce t2 with
    | none => rw [hpts] at h; cases h
    | some t3 =>
      rw [hpts] at h
      simp only [Option.some_bind, Option.pure_def, Option.some_inj] at h
      exact ⟨t2, t3, rfl, hpts, h.symm⟩

theorem load_pit_stops_destruct (t t' : Table) (h : load_pit_stops t = some t') :
    ∃ u v, (pitPrepare t).numericOpt nm_lap = some u
      ∧ u.numericOpt nm_stop = some v
      ∧ v.dropnaSubset [nm_duration] = some t' := by
  unfold load_pit_stops pitCoerced at h
  cases hlap : (pitPrepare t).numericOpt nm_lap with
  | none => rw [hlap] at h; cases h
  | some u =>
    rw [hlap] at h
    simp only [Option.bind_eq_bind, Option.some_bind] at h
    cases hstop : u.numericOpt nm_stop with
    | none => rw [hstop] at h; cases h
    | some v =>
      rw [hstop] at h
      simp only [Option.some_bind] at h
      exact ⟨u, v, rfl, hstop, h⟩

theorem cols_ne_nil_of_hasCol (t : Table) (c : Name) (h : t.hasCol c = true) :
    t.cols ≠ [] := by
  obtain ⟨p, hp, _⟩ := (hasCol_iff_exists t c).mp h
  exact List.ne_nil_of_mem hp

theorem cols_numeric_ne_nil (t : Table) (c : Name) (h : t.cols ≠ []) :
    (t.numeric c).cols ≠ [] := by
  unfold Table.numeric updateCol
  simp [h]

theorem headers_head?_pitPrepare (t : Table) :
    (pitPrepare t).headers.head? = (normalizeTable t).headers.head? := by
  simp only [pitPrepare]
  by_cases hdur : (normalizeTable t).hasCol nm_duration = true
  · rw [if_pos hdur]
    by_cases hms : ((normalizeTable t).numeric nm_duration).hasCol nm_milliseconds = true
    · rw [if_pos hms]
      have hhd : (((normalizeTable t).numeric nm_duration).numeric
          nm_milliseconds).headers = (normalizeTable t).headers := by
        rw [headers_numeric, headers_numeric]
      have hnn : (((normalizeTable t).numeric nm_duration).numeric
          nm_milliseconds).cols ≠ [] := by
        apply cols_numeric_ne_nil
        apply cols_numeric_ne_nil
        exact cols_ne_nil_of_hasCol _ _ (by rw [hasCol_numeric] at hms; exact hms)
      by_cases hc : (¬ (((normalizeTable t).numeric nm_duration).numeric
            nm_milliseconds).hasCol nm_duration = true
          ∨ 2 * (((normalizeTable t).numeric nm_duration).numeric
              nm_milliseconds).colNaCount nm_duration
            > (((normalizeTable t).numeric nm_duration).numeric nm_milliseconds).nRows)
      · rw [if_pos hc]
        cases hmcol : (((normalizeTable t).numeric nm_duration).numeric
            nm_milliseconds).getColumn nm_milliseconds with
        | none => rw [hhd]
        | some mcol => rw [headers_head?_setColVals _ _ _ hnn, hhd]
      · rw [if_neg hc, hhd]
    · rw [if_neg hms, headers_numeric]
  · rw [if_neg hdur]
    by_cases hms : (normalizeTable t).hasCol nm_milliseconds = true
    · rw [if_pos hms]
      have hhd : ((normalizeTable t).numeric nm_milliseconds).headers
          = (normalizeTable t).headers := headers_numeric _ _
      have hnn : ((normalizeTable t).numeric nm_milliseconds).cols ≠ [] := by
        apply cols_numeric_ne_nil
        exact cols_ne_nil_of_hasCol _ _ hms
      by_cases hc : (¬ ((normalizeTable t).numeric nm_milliseconds).hasCol
            nm_duration = true
          ∨ 2 * ((normalizeTable t).numeric nm_milliseconds).colNaCount nm_duration
            > ((normalizeTable t).numeric nm_milliseconds).nRows)
      · rw [if_pos hc]
        cases hmcol : ((normalizeTable t).numeric nm_milliseconds).getColumn
            nm_milliseconds with
        | none => rw [hhd]
        | some mcol => rw [headers_head?_setColVals _ _ _ hnn, hhd]
      · rw [if_neg hc, hhd]
    · rw [if_neg hms]

theorem cols_updateCol_ne_nil (cols : List (Name × List Cell)) (c : Name)
    (f : List Cell → List Cell) (h : cols ≠ []) : updateCol cols c f ≠ [] := by
  simp [updateCol, h]

/-- A pit-stop file with a milliseconds column and no duration column
(derivation case of claim C5). -/
def c5wTable : Table :=
  ⟨[(strName "milliseconds", [Cell.num 20000, Cell.num 26000]),
    (strName "lap", [Cell.num 1, Cell.num 2])]⟩

/-- Witness for C5: on a concrete file without a `duration` column, the
prepared `duration` column is `milliseconds / 1000`. -/
theorem C5_duration_derivation_witness :
    (pitPrepare c5wTable).getColumn nm_duration
      = some [Cell.num 20, Cell.num 26] := by
  have h := (C5_duration_derivation c5wTable (by decide)).1
    (Or.inl (by decide)) [Cell.num 20000, Cell.num 26000] (by decide)
  refine h.trans ?_
  norm_num [toNumericCell, cellDiv1000]

/-- A races file whose identifier column has degraded to the one-character
header `'s'` (the exact degradation `load_circuits` repairs). -/
def c6races : Table :=
  ⟨[(strName "s", [Cell.num 1]),
    (strName "year", [Cell.num 2021]),
    (strName "date", [Cell.str (strName "2021-03-28")])]⟩

/-- C6 counterexample: the claim says every supported input file with a
one-character identifier header gets its first column renamed to the
canonical identifier name, but `load_races` loads a races file whose first
header is `'s'` without renaming it to `raceid`; only `load_circuits`
performs the repair. -/
theorem C6_counterexample :
    (load_races c6races).map Table.headers
      = some [strName "s", strName "year", strName "date"]
    ∧ strName "s" ≠ nm_raceid ∧ (strName "s").length = 1 := by
  decide

/-- C6 amended: the one-character-header repair happens only in the circuits
loader, and only when the normalized first header is exactly `'s'` (renamed
to `circuitid`); every other circuits header set and every other loader
leaves the first column's normalized name unchanged. -/
theorem C6_first_column_rename (t t' : Table) :
    (load_circuits t = some t' →
      t'.headers.head? =
        (if (normalizeTable t).headers.head? = some nm_s then some nm_circuitid
         else (normalizeTable t).headers.head?))
    ∧ (load_races t = some t' → t'.headers = t.headers.map normalizeName)
    ∧ (load_qualifying t = some t' → t'.headers = t.headers.map normalizeName)
    ∧ (load_results t = some t' →
        t'.headers.head? = (t.headers.map normalizeName).head?)
    ∧ (load_pit_stops t = some t' →
        t'.headers.head? = (t.headers.map normalizeName).head?) := by
  refine ⟨?_, ?_, ?_, ?_, ?_⟩
  · intro h
    simp only [load_circuits] at h
    by_cases hs : (normalizeTable t).headers.head? = some nm_s
    · rw [if_pos hs] at h
      rw [if_pos hs]
      cases hcols : (normalizeTable t).cols with
      | nil =>
        have hnone : (normalizeTable t).headers.head? = none := by
          unfold Table.headers
          rw [hcols]
          rfl
        rw [hnone] at hs
        cases hs
      | cons p ps =>
        rw [hcols] at h
        rw [headers_dropnaSubset _ _ _ h]
        rfl
    · rw [if_neg hs] at h
      rw [if_neg hs]
      rw [headers_dropnaSubset _ _ _ h]
  · intro h
    simp only [load_races] at h
    by_cases hdate : (normalizeTable t).hasCol nm_date = true
    · rw [if_pos hdate] at h
      have ht' := (Option.some_inj.mp h).symm
      rw [ht']
      rw [show (Table.mk (updateCol (normalizeTable t).cols nm_date
          (fun col => col.map toDatetimeCell))).headers
          = (Table.mk (normalizeTable t).cols).headers from headers_updateCol _ _ _]
      exact headers_normalizeTable t
    · rw [if_neg hdate] at h
      cases h
  · intro h
    obtain ⟨hpos, ht'⟩ := numericOpt_eq_some _ _ _ h
    rw [ht', headers_numeric]
    exact headers_normalizeTable t
  · intro h
    obtain ⟨t2, t3, hpos, hpts, ht'⟩ := load_results_destruct _ _ h
    obtain ⟨hposc, ht2⟩ := numericOpt_eq_some _ _ _ hpos
    obtain ⟨hptsc, ht3⟩ := pointsCoerce_eq_some _ _ hpts
    have ht3h : t3.headers = (normalizeTable t).headers := by
      rw [ht3]
      rw [show (Table.mk (updateCol t2.cols nm_points
          (fun col => col.map (fun x => fillnaZero (toNumericCell x))))).headers
          = (Table.mk t2.cols).headers from headers_updateCol _ _ _]
      rw [ht2, headers_numeric]
    have ht3nn : t3.cols ≠ [] := by
      rw [ht3]
      apply cols_updateCol_ne_nil
      have : t2.cols ≠ [] := by
        rw [ht2]
        exact cols_numeric_ne_nil _ _ (cols_ne_nil_of_hasCol _ _ hposc)
      exact this
    rw [ht']
    by_cases hg : t3.hasCol nm_grid = true
    · rw [if_pos hg, headers_numeric, ht3h, headers_normalizeTable]
    · rw [if_neg hg, headers_head?_setColVals _ _ _ ht3nn, ht3h,
        headers_normalizeTable]
  · intro h
    obtain ⟨u, v, hlap, hstop, hdrop⟩ := load_pit_stops_destruct _ _ h
    obtain ⟨hlapc, hu⟩ := numericOpt_eq_some _ _ _ hlap
    obtain ⟨hstopc, hv⟩ := numericOpt_eq_some _ _ _ hstop
    have : t'.headers = v.headers := headers_dropnaSubset _ _ _ hdrop
    rw [this, hv, headers_numeric, hu, headers_numeric]
    rw [← headers_normalizeTable]
    exact headers_head?_pitPrepare t

theorem getColumn_updateCol_self (cols : List (Name × List Cell)) (c : Name)
    (f : List Cell → List Cell) :
    (Table.mk (updateCol cols c f)).getColumn c
      = ((Table.mk cols).getColumn c).map f := by
  unfold Table.getColumn
  rw [find?_updateCol_self]
  cases cols.find? (fun p => decide (p.1 = c)) <;> rfl

theorem getColumn_updateCol_ne (cols : List (Name × List Cell)) (c c' : Name)
    (f : List Cell → List Cell) (h : c' ≠ c) :
    (Table.mk (updateCol cols c f)).getColumn c'
      = (Table.mk cols).getColumn c' := by
  unfold Table.getColumn
  rw [find?_updateCol_ne _ _ _ _ h]

theorem pitCoerced_destruct (t u : Table) (h : pitCoerced t = some u) :
    ∃ t4, (pitPrepare t).numericOpt nm_lap = some t4
      ∧ t4.numericOpt nm_stop = some u := by
  unfold pitCoerced at h
  cases hlap : (pitPrepare t).numericOpt nm_lap with
  | none => rw [hlap] at h; cases h
  | some t4 =>
    rw [hlap] at h
    simp only [Option.bind_eq_bind, Option.some_bind] at h
    exact ⟨t4, rfl, h⟩

/-- A results file whose `points` cell is unparseable text. -/
def c7results : Table :=
  ⟨[(strName "raceid", [Cell.num 5]),
    (strName "position", [Cell.num 1]),
    (strName "points", [Cell.str (strName "notanumber")])]⟩

/-- The table `load_results` produces from `c7results`. -/
def c7out : Table :=
  ⟨[(strName "raceid", [Cell.num 5]),
    (strName "position", [Cell.num 1]),
    (strName "points", [Cell.num 0]),
    (strName "grid", [Cell.num 0])]⟩

/-- C7 counterexample: the claim says an unparseable cell in the listed
numeric columns ends up missing, with no default substituted, but an
unparseable `points` value is loaded as the default 0 (line 96 applies
`.fillna(0)` after the coercion). -/
theorem C7_counterexample :
    (load_results c7results).bind (fun u => u.getColumn nm_points)
      = some [Cell.num 0]
    ∧ Cell.num 0 ≠ Cell.na := by
  decide

theorem hasCol_of_getColumn_isSome (t : Table) (c : Name) (col : List Cell)
    (h : t.getColumn c = some col) : t.hasCol c = true := by
  unfold Table.getColumn at h
  cases hf : t.cols.find? (fun p => decide (p.1 = c)) with
  | none => rw [hf] at h; cases h
  | some p =>
    have hp := List.mem_of_find?_eq_some hf
    exact (hasCol_iff_exists t c).mpr ⟨p, hp, by simpa using List.find?_some hf⟩

/-- C7 amended: numeric coercion of the listed columns maps each
unparseable value to a missing value and never raises; the missing value is
kept for `position` (results and qualifying), for `grid` (no default is
substituted there) and for the pit-stop columns, while for `points` the
missing value is then replaced by the default 0. -/
theorem C7_coercion_to_missing (t t2 u : Table) :
    (∀ s, toNumericCell (Cell.str s) = Cell.na
      ∧ fillnaZero (toNumericCell (Cell.str s)) = Cell.num 0)
    ∧ (load_results t = some t2 →
        (∀ col, (normalizeTable t).getColumn nm_position = some col →
          t2.getColumn nm_position = some (col.map toNumericCell))
        ∧ (∀ col, (normalizeTable t).getColumn nm_points = some col →
          t2.getColumn nm_points
            = some (col.map (fun x => fillnaZero (toNumericCell x))))
        ∧ (∀ col, (normalizeTable t).getColumn nm_grid = some col →
          t2.getColumn nm_grid = some (col.map toNumericCell)))
    ∧ (load_qualifying t = some t2 →
        ∀ col, (normalizeTable t).getColumn nm_position = some col →
          t2.getColumn nm_position = some (col.map toNumericCell))
    ∧ (pitCoerced t = some u →
        (∀ col, (pitPrepare t).getColumn nm_lap = some col →
          u.getColumn nm_lap = some (col.map toNumericCell))
        ∧ (∀ col, (pitPrepare t).getColumn nm_stop = some col →
          u.getColumn nm_stop = some (col.map toNumericCell))) := by
  have hne_rp : nm_raceid ≠ nm_position := by decide
  have hne_pospts : nm_position ≠ nm_points := by decide
  have hne_posgrid : nm_position ≠ nm_grid := by decide
  have hne_ptsgrid : nm_points ≠ nm_grid := by decide
  have hne_lapstop : nm_lap ≠ nm_stop := by decide
  have hne_stoplap : nm_stop ≠ nm_lap := by decide
  have hne_gridpts : nm_grid ≠ nm_points := by decide
  have hne_gridpos : nm_grid ≠ nm_position := by decide
  refine ⟨fun s => ⟨rfl, rfl⟩, ?_, ?_, ?_⟩
  · intro h
    obtain ⟨a, b, hpos, hpts, ht'⟩ := load_results_destruct _ _ h
    obtain ⟨hposc, ha⟩ := numericOpt_eq_some _ _ _ hpos
    obtain ⟨hptsc, hb⟩ := pointsCoerce_eq_some _ _ hpts
    have hbnn : b.cols ≠ [] := by
      rw [hb]
      apply cols_updateCol_ne_nil
      rw [ha]
      exact cols_numeric_ne_nil _ _ (cols_ne_nil_of_hasCol _ _ hposc)
    refine ⟨?_, ?_, ?_⟩
    · intro col hcol
      have h1 : t2.getColumn nm_position = b.getColumn nm_position := by
        rw [ht']
        by_cases hg : b.hasCol nm_grid = true
        · rw [if_pos hg, getColumn_numeric_ne _ _ _ hne_posgrid]
        · rw [if_neg hg, getColumn_setColVals_ne _ _ _ _ hne_posgrid]
      have h2 : b.getColumn nm_position = a.getColumn nm_position := by
        rw [hb]
        exact getColumn_updateCol_ne _ _ _ _ hne_pospts
      rw [h1, h2, ha, getColumn_numeric_self, hcol]
      rfl
    · intro col hcol
      have h1 : t2.getColumn nm_points = b.getColumn nm_points := by
        rw [ht']
        by_cases hg : b.hasCol nm_grid = true
        · rw [if_pos hg, getColumn_numeric_ne _ _ _ hne_ptsgrid]
        · rw [if_neg hg, getColumn_setColVals_ne _ _ _ _ hne_ptsgrid]
      have h2 : b.getColumn nm_points
          = (a.getColumn nm_points).map
              (List.map (fun x => fillnaZero (toNumericCell x))) := by
        rw [hb]
        exact getColumn_updateCol_self _ _ _
      have h3 : a.getColumn nm_points = (normalizeTable t).getColumn nm_points := by
        rw [ha]
        exact getColumn_numeric_ne _ _ _ (fun hc => hne_pospts hc.symm)
      rw [h1, h2, h3, hcol]
      rfl
    · intro col hcol
      have hg : b.hasCol nm_grid = true := by
        rw [hb]
        rw [hasCol_updateCol a.cols nm_points nm_grid
          (fun col => col.map (fun x => fillnaZero (toNumericCell x)))]
        show a.hasCol nm_grid = true
        rw [ha, hasCol_numeric]
        exact hasCol_of_getColumn_isSome _ _ _ hcol
      have h2 : b.getColumn nm_grid = a.getColumn nm_grid := by
        rw [hb]
        exact getColumn_updateCol_ne _ _ _ _ hne_gridpts
      have h3 : a.getColumn nm_grid = (normalizeTable t).getColumn nm_grid := by
        rw [ha]
        exact getColumn_numeric_ne _ _ _ hne_gridpos
      rw [ht', if_pos hg, getColumn_numeric_self, h2, h3, hcol]
      rfl
  · intro h col hcol
    obtain ⟨hposc, ht2⟩ := numericOpt_eq_some _ _ _ h
    rw [ht2, getColumn_numeric_self, hcol]
    rfl
  · intro h
    obtain ⟨t4, hlap, hstop⟩ := pitCoerced_destruct _ _ h
    obtain ⟨hlapc, ht4⟩ := numericOpt_eq_some _ _ _ hlap
    obtain ⟨hstopc, hu⟩ := numericOpt_eq_some _ _ _ hstop
    constructor
    · intro col hcol
      rw [hu, getColumn_numeric_ne _ _ _ hne_lapstop, ht4,
        getColumn_numeric_self, hcol]
      rfl
    · intro col hcol
      rw [hu, getColumn_numeric_self, ht4,
        getColumn_numeric_ne _ _ _ hne_stoplap, hcol]
      rfl

/-- Witness for the amended C7: on the concrete results file, the coerced
`position` column is obtained from the theorem. -/
theorem C7_coercion_to_missing_witness :
    c7out.getColumn nm_position = some [Cell.num 1] := by
  have h := ((C7_coercion_to_missing c7results c7out c7out).2.1 (by decide)).1
    [Cell.num 1] (by decide)
  exact h.trans (by decide)

theorem nRows_setColVals_absent (t : Table) (c : Name) (vals : List Cell)
    (hc : ¬ t.hasCol c = true) (h : t.cols ≠ []) :
    (t.setColVals c vals).nRows = t.nRows := by
  unfold Table.setColVals
  rw [if_neg hc]
  cases hcc : t.cols with
  | nil => exact absurd hcc h
  | cons p ps =>
    unfold Table.nRows
    rw [hcc]
    rfl

theorem nRows_updateCol_table (t : Table) (c : Name) (g : Cell → Cell) :
    (Table.mk (updateCol t.cols c (List.map g))).nRows = t.nRows := by
  cases t with
  | mk cols => exact nRows_updateCol_map cols c g

/-- A results file whose single row has a missing `raceid` join key. -/
def c9results : Table :=
  ⟨[(strName "raceid", [Cell.na]),
    (strName "position", [Cell.num 3]),
    (strName "points", [Cell.num 2])]⟩

/-- The table `load_results` produces from `c9results`. -/
def c9out : Table :=
  ⟨[(strName "raceid", [Cell.na]),
    (strName "position", [Cell.num 3]),
    (strName "points", [Cell.num 2]),
    (strName "grid", [Cell.num 0])]⟩

/-- A pit-stop file whose single row has a missing `raceid` but a valid
duration. -/
def c9pit : Table :=
  ⟨[(strName "raceid", [Cell.na]),
    (strName "duration", [Cell.num 25]),
    (strName "lap", [Cell.num 1]),
    (strName "stop", [Cell.num 1])]⟩

/-- C9 counterexample: the claim says rows with missing join-key values are
excluded during ingestion, but a results row with a missing `raceid`
survives `load_results` unchanged (no loader drops rows by key). -/
theorem C9_counterexample :
    (load_results c9results).bind (fun u => u.getColumn nm_raceid)
      = some [Cell.na]
    ∧ (load_results c9results).map Table.nRows = some 1 := by
  decide

/-- C9 amended: ingestion never excludes rows for missing join keys: the
results and qualifying loaders keep every row and leave the `raceid` column
untouched, and the pit-stop loader drops rows only by the `duration`
column, so a pit-stop row with a missing `raceid` and a valid duration
survives. -/
theorem C9_no_key_based_row_drop (t t' : Table) :
    (load_results t = some t' →
      t'.nRows = (normalizeTable t).nRows
      ∧ t'.getColumn nm_raceid = (normalizeTable t).getColumn nm_raceid)
    ∧ (load_qualifying t = some t' →
      t'.nRows = (normalizeTable t).nRows
      ∧ t'.getColumn nm_raceid = (normalizeTable t).getColumn nm_raceid)
    ∧ (load_pit_stops c9pit).bind (fun u => u.getColumn nm_raceid)
        = some [Cell.na] := by
  have hne_rp : nm_raceid ≠ nm_position := by decide
  have hne_rpts : nm_raceid ≠ nm_points := by decide
  have hne_rg : nm_raceid ≠ nm_grid := by decide
  refine ⟨?_, ?_, by decide⟩
  · intro h
    obtain ⟨a, b, hpos, hpts, ht'⟩ := load_results_destruct _ _ h
    obtain ⟨hposc, ha⟩ := numericOpt_eq_some _ _ _ hpos
    obtain ⟨hptsc, hb⟩ := pointsCoerce_eq_some _ _ hpts
    have hbnn : b.cols ≠ [] := by
      rw [hb]
      apply cols_updateCol_ne_nil
      rw [ha]
      exact cols_numeric_ne_nil _ _ (cols_ne_nil_of_hasCol _ _ hposc)
    have hbrows : b.nRows = (normalizeTable t).nRows := by
      rw [hb, nRows_updateCol_table, ha, nRows_numeric]
    constructor
    · rw [ht']
      by_cases hg : b.hasCol nm_grid = true
      · rw [if_pos hg, nRows_numeric, hbrows]
      · rw [if_neg hg, nRows_setColVals_absent _ _ _ hg hbnn, hbrows]
    · have h1 : t'.getColumn nm_raceid = b.getColumn nm_raceid := by
        rw [ht']
        by_cases hg : b.hasCol nm_grid = true
        · rw [if_pos hg, getColumn_numeric_ne _ _ _ hne_rg]
        · rw [if_neg hg, getColumn_setColVals_ne _ _ _ _ hne_rg]
      have h2 : b.getColumn nm_raceid = a.getColumn nm_raceid := by
        rw [hb]
        exact getColumn_updateCol_ne _ _ _ _ hne_rpts
      rw [h1, h2, ha, getColumn_numeric_ne _ _ _ hne_rp]
  · intro h
    obtain ⟨hposc, ht'⟩ := numericOpt_eq_some _ _ _ h
    exact ⟨by rw [ht', nRows_numeric],
      by rw [ht', getColumn_numeric_ne _ _ _ hne_rp]⟩

/-- Witness for the amended C9: instantiated on the concrete results file
with a missing `raceid`. -/
theorem C9_no_key_based_row_drop_witness :
    c9out.nRows = (normalizeTable c9results).nRows
    ∧ c9out.getColumn nm_raceid = (normalizeTable c9results).getColumn nm_raceid :=
  (C9_no_key_based_row_drop c9results c9out).1 (by decide)

-- ### Dashboard model (f1_dashboard.py lines 149-302, 359-422)

/-- A loaded `races` row as the dashboard uses it: `raceid`, `year` and
`circuitid` are the join/filter keys (well-formed in the loaded files; the
spec's data model lists them as the table's key attributes). -/
structure RaceRow where
  raceid : Nat
  year : Nat
  circuitid : Nat
  deriving DecidableEq, Repr

/-- A loaded `circuits` row: its key and the `name` column the dashboard
groups by. -/
structure CircuitRow where
  circuitid : Nat
  cname : Name
  deriving DecidableEq, Repr

/-- A row of `races_with_circuits` (line 149): race fields plus the merged
circuit name (`none` when the left merge found no matching circuit). -/
structure RcRow where
  raceid : Nat
  year : Nat
  circuitid : Nat
  name_circuit : Option Name
  deriving DecidableEq, Repr

/-- Translation of `races.merge(circuits, on='circuitid', how='left', ...)` (line 149):
each race row is paired with every matching circuit row, or kept once with
missing circuit fields when no circuit matches. -/
def races_with_circuits (races : List RaceRow) (circuits : List CircuitRow) :
    List RcRow :=
  races.flatMap (fun r =>
    if (circuits.filter (fun c => decide (c.circuitid = r.circuitid))).isEmpty then
      [⟨r.raceid, r.year, r.circuitid, none⟩]
    else
      (circuits.filter (fun c => decide (c.circuitid = r.circuitid))).map
        (fun c => ⟨r.raceid, r.year, r.circuitid, some c.cname⟩))

/-- Model of `pandas.unique`: keep the first occurrence of each value. -/
def uniqueAux {α : Type} [DecidableEq α] : List α → List α → List α
  | [], _ => []
  | x :: xs, seen =>
    if x ∈ seen then uniqueAux xs seen else x :: uniqueAux xs (x :: seen)

def uniqueFirst {α : Type} [DecidableEq α] (l : List α) : List α := uniqueAux l []

/-- Lines 172-177: `filtered_races` (the season filter is applied only when
the selection is non-empty; an empty selection keeps everything). -/
def selected_races (races : List RaceRow) (circuits : List CircuitRow)
    (S : List Nat) : List RcRow :=
  if S.isEmpty then races_with_circuits races circuits
  else (races_with_circuits races circuits).filter (fun r => decide (r.year ∈ S))

/-- Lines 174/177: `filtered_races_ids` (`raceid` is present in the typed
model, so the `if 'raceid' in columns` guard always takes its first arm). -/
def selected_race_ids (races : List RaceRow) (circuits : List CircuitRow)
    (S : List Nat) : List Nat :=
  if S.isEmpty then uniqueFirst (races.map (fun r => r.raceid))
  else
    uniqueFirst
      (((races_with_circuits races circuits).filter
        (fun r => decide (r.year ∈ S))).map (fun r => r.raceid))

/-- Model of `table[table['raceid'].isin(filtered_races_ids)]`, the propagation of the
season filter to every downstream table (lines 211, 217, 266, 315, 366-367,
443). -/
def filterByRaceIds {α : Type} (rid : α → Nat) (ids : List Nat)
    (rows : List α) : List α :=
  rows.filter (fun r => decide (rid r ∈ ids))

/-- The season of a downstream row's race: look its `raceid` up in the races
table (`none` when no race has that id). -/
def seasonOfRace (races : List RaceRow) (i : Nat) : Option Nat :=
  (races.find? (fun r => decide (r.raceid = i))).map (fun r => r.year)

/-- The specification's other side of the commute: discard rows whose race's
season is not in `S` (rows whose id resolves to no race have no season in
`S` and are discarded). -/
def filterBySeason {α : Type} (rid : α → Nat) (races : List RaceRow)
    (S : List Nat) (rows : List α) : List α :=
  rows.filter (fun r =>
    match seasonOfRace races (rid r) with
    | some y => decide (y ∈ S)
    | none => false)

theorem mem_uniqueAux {α : Type} [DecidableEq α] (l : List α) :
    ∀ (seen : List α) (a : α), a ∈ uniqueAux l seen ↔ (a ∈ l ∧ a ∉ seen) := by
  induction l with
  | nil => intro seen a; simp [uniqueAux]
  | cons x xs ih =>
    intro seen a
    by_cases hx : x ∈ seen
    · simp only [uniqueAux, if_pos hx, ih]
      constructor
      · rintro ⟨h1, h2⟩
        exact ⟨List.mem_cons_of_mem _ h1, h2⟩
      · rintro ⟨h1, h2⟩
        rcases List.mem_cons.mp h1 with h1 | h1
        · subst h1; exact absurd hx h2
        · exact ⟨h1, h2⟩
    · simp only [uniqueAux, if_neg hx]
      constructor
      · intro hmem
        rcases List.mem_cons.mp hmem with h1 | h1
        · subst h1
          exact ⟨List.mem_cons_self _ _, hx⟩
        · obtain ⟨h2, h3⟩ := (ih (x :: seen) a).mp h1
          exact ⟨List.mem_cons_of_mem _ h2,
            fun hc => h3 (List.mem_cons_of_mem _ hc)⟩
      · rintro ⟨h1, h2⟩
        rcases List.mem_cons.mp h1 with h1 | h1
        · subst h1; exact List.mem_cons_self _ _
        · by_cases hax : a = x
          · subst hax; exact List.mem_cons_self _ _
          · refine List.mem_cons_of_mem _ ((ih (x :: seen) a).mpr ⟨h1, ?_⟩)
            intro hc
            rcases List.mem_cons.mp hc with hc | hc
            · exact hax hc
            · exact h2 hc

theorem mem_uniqueFirst {α : Type} [DecidableEq α] (l : List α) (a : α) :
    a ∈ uniqueFirst l ↔ a ∈ l := by
  unfold uniqueFirst
  rw [mem_uniqueAux]
  simp

theorem rwc_proj (races : List RaceRow) (circuits : List CircuitRow)
    (row : RcRow) (h : row ∈ races_with_circuits races circuits) :
    ∃ r ∈ races, row.raceid = r.raceid ∧ row.year = r.year := by
  unfold races_with_circuits at h
  rw [List.mem_flatMap] at h
  obtain ⟨r, hr, hrow⟩ := h
  refine ⟨r, hr, ?_⟩
  by_cases he : (circuits.filter (fun c => decide (c.circuitid = r.circuitid))).isEmpty = true
  · rw [if_pos he] at hrow
    rcases List.mem_singleton.mp hrow with rfl
    exact ⟨rfl, rfl⟩
  · rw [if_neg he] at hrow
    rw [List.mem_map] at hrow
    obtain ⟨c, _, hc⟩ := hrow
    rw [← hc]
    exact ⟨rfl, rfl⟩

theorem race_rwc (races : List RaceRow) (circuits : List CircuitRow)
    (r : RaceRow) (h : r ∈ races) :
    ∃ row ∈ races_with_circuits races circuits,
      row.raceid = r.raceid ∧ row.year = r.year := by
  unfold races_with_circuits
  by_cases he : (circuits.filter (fun c => decide (c.circuitid = r.circuitid))).isEmpty = true
  · refine ⟨⟨r.raceid, r.year, r.circuitid, none⟩, ?_, rfl, rfl⟩
    rw [List.mem_flatMap]
    exact ⟨r, h, by rw [if_pos he]; exact List.mem_singleton.mpr rfl⟩
  · have hnil : (circuits.filter (fun c => decide (c.circuitid = r.circuitid))) ≠ [] := by
      intro hnil
      rw [hnil] at he
      exact he rfl
    obtain ⟨c, hc⟩ := List.exists_mem_of_ne_nil _ hnil
    refine ⟨⟨r.raceid, r.year, r.circuitid, some c.cname⟩, ?_, rfl, rfl⟩
    rw [List.mem_flatMap]
    refine ⟨r, h, ?_⟩
    rw [if_neg he]
    rw [List.mem_map]
    exact ⟨c, hc, rfl⟩

theorem mem_selected_race_ids_iff (races : List RaceRow)
    (circuits : List CircuitRow) (S : List Nat) (hS : S.isEmpty = false)
    (i : Nat) :
    i ∈ selected_race_ids races circuits S
      ↔ ∃ r ∈ races, r.raceid = i ∧ r.year ∈ S := by
  unfold selected_race_ids
  rw [if_neg (by simp [hS])]
  rw [mem_uniqueFirst, List.mem_map]
  constructor
  · rintro ⟨row, hrow, hid⟩
    rw [List.mem_filter] at hrow
    obtain ⟨hrow, hyear⟩ := hrow
    obtain ⟨r, hr, hid2, hyear2⟩ := rwc_proj races circuits row hrow
    refine ⟨r, hr, by rw [← hid2, hid], ?_⟩
    rw [← hyear2]
    exact of_decide_eq_true hyear
  · rintro ⟨r, hr, hid, hyear⟩
    obtain ⟨row, hrow, hid2, hyear2⟩ := race_rwc races circuits r hr
    refine ⟨row, ?_, by rw [hid2, hid]⟩
    rw [List.mem_filter]
    exact ⟨hrow, by rw [hyear2]; exact decide_eq_true hyear⟩

theorem exists_race_iff_find? (races : List RaceRow)
    (hnd : (races.map (fun r => r.raceid)).Nodup) (i : Nat) (P : RaceRow → Prop) :
    (∃ r ∈ races, r.raceid = i ∧ P r)
      ↔ (∃ r, races.find? (fun r => decide (r.raceid = i)) = some r ∧ P r) := by
  constructor
  · rintro ⟨r, hr, hid, hP⟩
    have hsome : (races.find? (fun r => decide (r.raceid = i))).isSome := by
      rw [List.find?_isSome]
      exact ⟨r, hr, by simpa using hid⟩
    obtain ⟨r0, hr0⟩ := Option.isSome_iff_exists.mp hsome
    have hmem := List.mem_of_find?_eq_some hr0
    have hid0 : r0.raceid = i := by simpa using List.find?_some hr0
    have hrr : r = r0 :=
      List.inj_on_of_nodup_map hnd hr hmem (by rw [hid, hid0])
    exact ⟨r0, hr0, hrr ▸ hP⟩
  · rintro ⟨r, hr, hP⟩
    exact ⟨r, List.mem_of_find?_eq_some hr, by simpa using List.find?_some hr, hP⟩

theorem season_filter_pointwise (races : List RaceRow)
    (circuits : List CircuitRow) (S : List Nat) (hS : S.isEmpty = false)
    (hnd : (races.map (fun r => r.raceid)).Nodup) (i : Nat) :
    decide (i ∈ selected_race_ids races circuits S)
      = (match seasonOfRace races i with
         | some y => decide (y ∈ S)
         | none => false) := by
  cases hfind : races.find? (fun r => decide (r.raceid = i)) with
  | none =>
    have hnot : ¬ i ∈ selected_race_ids races circuits S := by
      rw [mem_selected_race_ids_iff races circuits S hS]
      rintro ⟨r, hr, hid, hy⟩
      have := List.find?_eq_none.mp hfind r hr
      simp [hid] at this
    unfold seasonOfRace
    rw [hfind]
    exact decide_eq_false hnot
  | some r0 =>
    have hiff : (i ∈ selected_race_ids races circuits S) ↔ r0.year ∈ S := by
      rw [mem_selected_race_ids_iff races circuits S hS]
      rw [exists_race_iff_find? races hnd i (fun r => r.year ∈ S)]
      constructor
      · rintro ⟨r, hr, hP⟩
        rw [hfind] at hr
        cases hr
        exact hP
      · intro hy
        exact ⟨r0, hfind, hy⟩
    unfold seasonOfRace
    rw [hfind]
    exact decide_eq_decide.mpr hiff

/-- C2: filtering a downstream table to the race identifiers of the selected
seasons and then aggregating equals aggregating after discarding rows whose
race's season is not in the selection: the two filtered tables are the same
list, so every aggregation (count, sum, and with them mean, min, max,
group-by sizes) coincides.  Needs a non-empty selection (an empty selection
disables the filter, claim C10) and the spec's invariant that race
identifiers are unique in the races file. -/
theorem C2_season_filter_commutes {α : Type} (rid : α → Nat)
    (races : List RaceRow) (circuits : List CircuitRow) (S : List Nat)
    (rows : List α) (hS : S.isEmpty = false)
    (hnd : (races.map (fun r => r.raceid)).Nodup) :
    filterByRaceIds rid (selected_race_ids races circuits S) rows
      = filterBySeason rid races S rows
    ∧ (filterByRaceIds rid (selected_race_ids races circuits S) rows).length
      = (filterBySeason rid races S rows).length
    ∧ ∀ f : α → ℚ,
      ((filterByRaceIds rid (selected_race_ids races circuits S) rows).map f).sum
        = ((filterBySeason rid races S rows).map f).sum := by
  have hmain : filterByRaceIds rid (selected_race_ids races circuits S) rows
      = filterBySeason rid races S rows := by
    unfold filterByRaceIds filterBySeason
    apply List.filter_congr
    intro x _
    exact season_filter_pointwise races circuits S hS hnd (rid x)
  exact ⟨hmain, by rw [hmain], fun f => by rw [hmain]⟩

/-- Concrete data for the C2 witness: two seasons, one circuit, and a
downstream table of (raceid, value) rows with one orphan raceid. -/
def c2races : List RaceRow := [⟨1, 2021, 10⟩, ⟨2, 2022, 10⟩]

def c2circuits : List CircuitRow := [⟨10, strName "monza"⟩]

def c2rows : List (Nat × Nat) := [(1, 7), (2, 8), (3, 9)]

/-- Witness for C2: selecting only 2021 reduces the downstream table to
exactly the rows whose race identifiers belong to 2021 races. -/
theorem C2_season_filter_commutes_witness :
    filterByRaceIds Prod.fst (selected_race_ids c2races c2circuits [2021]) c2rows
      = filterBySeason Prod.fst c2races [2021] c2rows
    ∧ filterByRaceIds Prod.fst (selected_race_ids c2races c2circuits [2021]) c2rows
      = [(1, 7)] := by
  refine ⟨(C2_season_filter_commutes Prod.fst c2races c2circuits [2021] c2rows
    (by decide) (by decide)).1, by decide⟩

/-- C10: an empty season selection disables the filter instead of selecting
nothing: `filtered_races` is the whole merged table, the id list contains
exactly all race identifiers, and the downstream `isin` filter keeps every
row whose race identifier resolves in the races table (the spec's
foreign-key invariant). -/
theorem C10_empty_selection_no_filter {α : Type} (rid : α → Nat)
    (races : List RaceRow) (circuits : List CircuitRow) (rows : List α)
    (hfk : ∀ r ∈ rows, ∃ q ∈ races, q.raceid = rid r) :
    selected_races races circuits [] = races_with_circuits races circuits
    ∧ (∀ i, i ∈ selected_race_ids races circuits []
        ↔ i ∈ races.map (fun r => r.raceid))
    ∧ filterByRaceIds rid (selected_race_ids races circuits []) rows = rows := by
  refine ⟨rfl, ?_, ?_⟩
  · intro i
    unfold selected_race_ids
    rw [if_pos (show ([] : List Nat).isEmpty = true from rfl)]
    exact mem_uniqueFirst _ _
  · unfold filterByRaceIds
    rw [List.filter_eq_self]
    intro a ha
    apply decide_eq_true
    unfold selected_race_ids
    rw [if_pos (show ([] : List Nat).isEmpty = true from rfl), mem_uniqueFirst,
      List.mem_map]
    exact hfk a ha

/-- Downstream rows whose race identifiers all resolve, for the C10 witness. -/
def c10rows : List (Nat × Nat) := [(1, 7), (2, 8)]

/-- Witness for C10: with an empty selection, the downstream filter keeps
every row. -/
theorem C10_empty_selection_no_filter_witness :
    filterByRaceIds Prod.fst (selected_race_ids c2races c2circuits []) c10rows
      = c10rows :=
  (C10_empty_selection_no_filter Prod.fst c2races c2circuits c10rows
    (by decide)).2.2

-- ### Pit-stop outlier filtering (lines 265-302)

/-- A loaded pit-stops row as the dashboard uses it: key columns plus the
numeric columns, `Option ℚ` for possibly-missing values. -/
structure PitRow where
  raceid : Nat
  driverid : Nat
  stop : Option ℚ
  lap : Option ℚ
  duration : Option ℚ
  deriving DecidableEq, Repr

/-- Model of `series > q` on a possibly-missing value (comparison with NaN is false). -/
def optGt (o : Option ℚ) (q : ℚ) : Bool :=
  match o with
  | some d => decide (q < d)
  | none => false

/-- Model of `series < q` on a possibly-missing value (comparison with NaN is false). -/
def optLt (o : Option ℚ) (q : ℚ) : Bool :=
  match o with
  | some d => decide (d < q)
  | none => false

/-- Lines 265-270: `filtered_pit_stops`, the outlier filter of Phase 2:
rows in the selected races with a present duration in (0, 300). -/
def filtered_pit_stops (ps : List PitRow) (ids : List Nat) : List PitRow :=
  ps.filter (fun p => decide (p.raceid ∈ ids) && p.duration.isSome
    && optGt p.duration 0 && optLt p.duration 300)

/-- The duration values entering the Phase 2 aggregations. -/
def pitDurationsUsed (ps : List PitRow) (ids : List Nat) : List ℚ :=
  (filtered_pit_stops ps ids).filterMap (fun p => p.duration)

/-- Line 275: the "Avg Pit Stop" metric. -/
def avg_pit_duration (ps : List PitRow) (ids : List Nat) : ℚ :=
  (pitDurationsUsed ps ids).sum / (pitDurationsUsed ps ids).length

/-- Line 277: the "Fastest Stop" metric. -/
def fastest_pit_stop (ps : List PitRow) (ids : List Nat) : Option ℚ :=
  (pitDurationsUsed ps ids).min?

theorem duration_bounds_of_mem_filtered (ps : List PitRow) (ids : List Nat)
    (p : PitRow) (hp : p ∈ filtered_pit_stops ps ids) :
    ∃ d, p.duration = some d ∧ 0 < d ∧ d < 300 := by
  unfold filtered_pit_stops at hp
  rw [List.mem_filter] at hp
  obtain ⟨_, hcond⟩ := hp
  simp only [Bool.and_eq_true] at hcond
  obtain ⟨⟨⟨_, hsome⟩, hgt⟩, hlt⟩ := hcond
  obtain ⟨d, hd⟩ := Option.isSome_iff_exists.mp hsome
  rw [hd] at hgt hlt
  refine ⟨d, hd, ?_, ?_⟩
  · simpa [optGt] using hgt
  · simpa [optLt] using hlt

/-- C3: after outlier filtering, every row entering the fastest/average
pit-stop computations has a present duration strictly between 0 and 300
seconds; in particular every value used by those aggregations lies in
(0, 300). -/
theorem C3_outlier_filter_safety (ps : List PitRow) (ids : List Nat) :
    (∀ p ∈ filtered_pit_stops ps ids,
      ∃ d, p.duration = some d ∧ 0 < d ∧ d < 300)
    ∧ (∀ d ∈ pitDurationsUsed ps ids, 0 < d ∧ d < 300) := by
  refine ⟨fun p hp => duration_bounds_of_mem_filtered ps ids p hp, ?_⟩
  intro d hd
  unfold pitDurationsUsed at hd
  rw [List.mem_filterMap] at hd
  obtain ⟨p, hp, hdur⟩ := hd
  obtain ⟨d', hd', h0, h300⟩ := duration_bounds_of_mem_filtered ps ids p hp
  rw [hd'] at hdur
  cases hdur
  exact ⟨h0, h300⟩

/-- Concrete pit stops for the C3 witness: one valid row, one zero duration,
one huge duration, one missing duration. -/
def c3pits : List PitRow :=
  [⟨1, 44, some 1, some 12, some 25⟩,
   ⟨1, 16, some 1, some 13, some 0⟩,
   ⟨1, 55, some 2, some 30, some 90000⟩,
   ⟨2, 44, some 1, some 10, none⟩]

/-- Witness for C3: the one surviving duration satisfies the bounds. -/
theorem C3_outlier_filter_safety_witness : 0 < (25 : ℚ) ∧ (25 : ℚ) < 300 :=
  (C3_outlier_filter_safety c3pits [1, 2]).2 25 (by decide)

-- ### Top-N selections (lines 245, 300-301, 417-422)

/-- Model of `nsmallest(n, col)`: pandas drops rows whose key is missing, sorts the
rest ascending by the key (first occurrence kept on ties) and takes `n`. -/
def nsmallestByOpt {α : Type} (n : Nat) (key : α → Option ℚ) (l : List α) :
    List α :=
  (List.insertionSort (fun a b => (key a).getD 0 ≤ (key b).getD 0)
    (l.filter (fun a => (key a).isSome))).take n

/-- Model of `nlargest(n, col)`: same with the descending order. -/
def nlargestByOpt {α : Type} (n : Nat) (key : α → Option ℚ) (l : List α) :
    List α :=
  (List.insertionSort (fun a b => (key b).getD 0 ≤ (key a).getD 0)
    (l.filter (fun a => (key a).isSome))).take n

/-- Line 301: `filtered_pit_stops.nsmallest(10, 'duration')`. -/
def fastest_pit_rows (ps : List PitRow) (ids : List Nat) : List PitRow :=
  nsmallestByOpt 10 (fun p => p.duration) (filtered_pit_stops ps ids)

/-- A merged qualifying/race row (lines 371-376). -/
structure QRRow where
  raceid : Nat
  driverid : Nat
  position_quali : Option ℚ
  position_race : Option ℚ
  points : ℚ
  deriving DecidableEq, Repr

/-- Line 379: `position_change = position_quali - position_race`; missing
when either side is missing, as NaN propagates through the subtraction. -/
def position_change (r : QRRow) : Option ℚ :=
  match r.position_quali, r.position_race with
  | some a, some b => some (a - b)
  | _, _ => none

/-- Line 418: `quali_race.nlargest(10, 'position_change')`. -/
def top_gainers (l : List QRRow) : List QRRow :=
  nlargestByOpt 10 position_change l

/-- Model of `groupby(col).size()` over the non-missing keys (pandas drops missing
group keys); one (key, count) row per distinct key. -/
def groupbySize (keys : List Name) : List (Name × Nat) :=
  (uniqueFirst keys).map
    (fun k => (k, (keys.filter (fun x => decide (x = k))).length))

/-- Line 245: count the filtered races per circuit name, sort the counts
descending, keep the first 10. -/
def top_circuits (fr : List RcRow) : List (Name × Nat) :=
  (List.insertionSort (fun a b => b.2 ≤ a.2)
    (groupbySize (fr.filterMap (fun r => r.name_circuit)))).take 10

theorem sorted_nsmallestByOpt {α : Type} (n : Nat) (key : α → Option ℚ)
    (l : List α) :
    List.Sorted (fun a b => (key a).getD 0 ≤ (key b).getD 0)
      (nsmallestByOpt n key l) := by
  have ht : IsTotal α (fun a b => (key a).getD 0 ≤ (key b).getD 0) :=
    ⟨fun a b => le_total _ _⟩
  have htr : IsTrans α (fun a b => (key a).getD 0 ≤ (key b).getD 0) :=
    ⟨fun _ _ _ h h' => le_trans h h'⟩
  exact (List.sorted_insertionSort _ _).sublist (List.take_sublist _ _)

theorem sorted_nlargestByOpt {α : Type} (n : Nat) (key : α → Option ℚ)
    (l : List α) :
    List.Sorted (fun a b => (key b).getD 0 ≤ (key a).getD 0)
      (nlargestByOpt n key l) := by
  have ht : IsTotal α (fun a b => (key b).getD 0 ≤ (key a).getD 0) :=
    ⟨fun a b => le_total _ _⟩
  have htr : IsTrans α (fun a b => (key b).getD 0 ≤ (key a).getD 0) :=
    ⟨fun _ _ _ h h' => le_trans h' h⟩
  exact (List.sorted_insertionSort _ _).sublist (List.take_sublist _ _)

theorem length_nsmallestByOpt {α : Type} (n : Nat) (key : α → Option ℚ)
    (l : List α) :
    (nsmallestByOpt n key l).length
      = min n (l.filter (fun a => (key a).isSome)).length := by
  unfold nsmallestByOpt
  rw [List.length_take, List.length_insertionSort]

theorem length_nlargestByOpt {α : Type} (n : Nat) (key : α → Option ℚ)
    (l : List α) :
    (nlargestByOpt n key l).length
      = min n (l.filter (fun a => (key a).isSome)).length := by
  unfold nlargestByOpt
  rw [List.length_take, List.length_insertionSort]

theorem filtered_pit_stops_durations_present (ps : List PitRow)
    (ids : List Nat) :
    (filtered_pit_stops ps ids).filter (fun p => p.duration.isSome)
      = filtered_pit_stops ps ids := by
  rw [List.filter_eq_self]
  intro p hp
  obtain ⟨d, hd, _, _⟩ := duration_bounds_of_mem_filtered ps ids p hp
  rw [hd]
  rfl

/-- C4: each of the dashboard's top-N selections returns rows sorted by the
selection's metric in the operation's direction (ascending for the fastest
pit stops, descending for the top gainers and the most-raced circuits), and
returns `min 10 (available rows)` rows, where the available rows of the
`nlargest` call are those with a computable metric and the available rows of
the circuits chart are the grouped circuit names. -/
theorem C4_topN_sorted_length (ps : List PitRow) (ids : List Nat)
    (qr : List QRRow) (fr : List RcRow) :
    List.Sorted (fun a b : PitRow => a.duration.getD 0 ≤ b.duration.getD 0)
      (fastest_pit_rows ps ids)
    ∧ (fastest_pit_rows ps ids).length
      = min 10 (filtered_pit_stops ps ids).length
    ∧ List.Sorted (fun a b : QRRow =>
        (position_change b).getD 0 ≤ (position_change a).getD 0)
      (top_gainers qr)
    ∧ (top_gainers qr).length
      = min 10 (qr.filter (fun r => (position_change r).isSome)).length
    ∧ List.Sorted (fun a b : Name × Nat => b.2 ≤ a.2) (top_circuits fr)
    ∧ (top_circuits fr).length
      = min 10 (groupbySize (fr.filterMap (fun r => r.name_circuit))).length := by
  refine ⟨?_, ?_, ?_, ?_, ?_, ?_⟩
  · exact sorted_nsmallestByOpt 10 (fun p => p.duration) (filtered_pit_stops ps ids)
  · rw [show fastest_pit_rows ps ids
        = nsmallestByOpt 10 (fun p => p.duration) (filtered_pit_stops ps ids)
      from rfl]
    rw [length_nsmallestByOpt, filtered_pit_stops_durations_present]
  · exact sorted_nlargestByOpt 10 position_change qr
  · exact length_nlargestByOpt 10 position_change qr
  · have ht : IsTotal (Name × Nat) (fun a b => b.2 ≤ a.2) :=
      ⟨fun a b => le_total b.2 a.2⟩
    have htr : IsTrans (Name × Nat) (fun a b => b.2 ≤ a.2) :=
      ⟨fun _ _ _ h h' => le_trans h' h⟩
    exact (List.sorted_insertionSort _ _).sublist (List.take_sublist _ _)
  · unfold top_circuits
    rw [List.length_take, List.length_insertionSort]

-- ### Section gating and the two-tier error policy (lines 144-146, 229,
-- 262, 309-313, 359-363, 429-433)

/-- The sidebar navigation choice (line 181). -/
inductive DashSection where
  | overview | phase1 | phase2 | phase3 | phase4 | phase5
  deriving DecidableEq, Repr

/-- The eight loader results (lines 135-142); `none` means that file failed
to load (the loader's `except` returned `None`). -/
structure LoadState where
  circuits : Option Table
  races : Option Table
  pit_stops : Option Table
  constructors : Option Table
  results : Option Table
  qualifying : Option Table
  drivers : Option Table
  lap_times : Option Table
  deriving DecidableEq, Repr

/-- How one dashboard section ends up: not rendered at all, rendered in a
degraded form behind a visible warning/placeholder, or fully rendered. -/
inductive SectionStatus where
  | hidden | warned | rendered
  deriving DecidableEq, Repr

structure PageView where
  phase1 : SectionStatus
  phase2 : SectionStatus
  phase3 : SectionStatus
  phase4 : SectionStatus
  phase5 : SectionStatus
  deriving DecidableEq, Repr

/-- Either the fatal stop of line 146 or a rendered page. -/
inductive RenderOutcome where
  | fatal
  | page (v : PageView)
  deriving DecidableEq, Repr

/-- The script's control flow over the loaded files: the required-file check
(lines 144-146, `st.error` + `st.stop`), then one gate per phase: Phase 1 is
unguarded (line 229), Phase 2 requires pit stops (line 262), Phase 3
requires results and degrades to a warning without constructors (lines
309-313), Phase 4 requires qualifying and results and warns without drivers
(lines 359-363), Phase 5 shows a placeholder without lap times (lines
429-433). -/
def renderDashboard (st : LoadState) (sec : DashSection) : RenderOutcome :=
  if st.circuits.isNone || st.races.isNone then .fatal
  else .page
    { phase1 := if sec = .overview ∨ sec = .phase1 then .rendered else .hidden
      phase2 :=
        if (sec = .overview ∨ sec = .phase2) ∧ st.pit_stops.isSome then
          .rendered
        else .hidden
      phase3 :=
        if (sec = .overview ∨ sec = .phase3) ∧ st.results.isSome then
          (if st.constructors.isNone then .warned else .rendered)
        else .hidden
      phase4 :=
        if (sec = .overview ∨ sec = .phase4) ∧ st.qualifying.isSome
            ∧ st.results.isSome then
          (if st.drivers.isNone then .warned else .rendered)
        else .hidden
      phase5 :=
        if sec = .overview ∨ sec = .phase5 then
          (if st.lap_times.isNone then .warned else .rendered)
        else .hidden }

/-- C1: the two-tier error policy.  The session halts exactly when a
required file (circuits or races) failed to load; a missing optional file
hides its section (pit stops, qualifying) or leaves it as a visible
warning/placeholder (constructors, drivers, lap times); and the remaining
sections are unaffected by each optional file: re-rendering with any other
value in the qualifying, pit-stops, constructors, drivers or lap-times slot
leaves every other section unchanged.  In particular a missing qualifying
file makes the qualifying-vs-race section not appear, and rendering is
total (no error is raised). -/
theorem C1_two_tier_error_policy (st : LoadState) (sec : DashSection) :
    (renderDashboard st sec = .fatal ↔ (st.circuits = none ∨ st.races = none))
    ∧ (st.qualifying = none → ∀ v, renderDashboard st sec = .page v →
        v.phase4 = .hidden)
    ∧ (st.pit_stops = none → ∀ v, renderDashboard st sec = .page v →
        v.phase2 = .hidden)
    ∧ (st.constructors = none → ∀ v, renderDashboard st sec = .page v →
        v.phase3 = .hidden ∨ v.phase3 = .warned)
    ∧ (st.drivers = none → ∀ v, renderDashboard st sec = .page v →
        v.phase4 = .hidden ∨ v.phase4 = .warned)
    ∧ (st.lap_times = none → ∀ v, renderDashboard st sec = .page v →
        v.phase5 = .hidden ∨ v.phase5 = .warned)
    ∧ (∀ q v v', renderDashboard st sec = .page v →
        renderDashboard { st with qualifying := q } sec = .page v' →
        v.phase1 = v'.phase1 ∧ v.phase2 = v'.phase2 ∧ v.phase3 = v'.phase3
          ∧ v.phase5 = v'.phase5)
    ∧ (∀ p v v', renderDashboard st sec = .page v →
        renderDashboard { st with pit_stops := p } sec = .page v' →
        v.phase1 = v'.phase1 ∧ v.phase3 = v'.phase3 ∧ v.phase4 = v'.phase4
          ∧ v.phase5 = v'.phase5)
    ∧ (∀ c v v', renderDashboard st sec = .page v →
        renderDashboard { st with constructors := c } sec = .page v' →
        v.phase1 = v'.phase1 ∧ v.phase2 = v'.phase2 ∧ v.phase4 = v'.phase4
          ∧ v.phase5 = v'.phase5)
    ∧ (∀ d v v', renderDashboard st sec = .page v →
        renderDashboard { st with drivers := d } sec = .page v' →
        v.phase1 = v'.phase1 ∧ v.phase2 = v'.phase2 ∧ v.phase3 = v'.phase3
          ∧ v.phase5 = v'.phase5)
    ∧ (∀ w v v', renderDashboard st sec = .page v →
        renderDashboard { st with lap_times := w } sec = .page v' →
        v.phase1 = v'.phase1 ∧ v.phase2 = v'.phase2 ∧ v.phase3 = v'.phase3
          ∧ v.phase4 = v'.phase4) := by
  by_cases hfat : (st.circuits.isNone || st.races.isNone) = true
  · have hfatal : renderDashboard st sec = .fatal := by
      unfold renderDashboard
      rw [if_pos hfat]
    have hor : st.circuits = none ∨ st.races = none := by
      have h2 : st.circuits.isNone = true ∨ st.races.isNone = true := by
        simpa using hfat
      rcases h2 with h | h
      · exact Or.inl (Option.isNone_iff_eq_none.mp h)
      · exact Or.inr (Option.isNone_iff_eq_none.mp h)
    refine ⟨⟨fun _ => hor, fun _ => hfatal⟩, ?_, ?_, ?_, ?_, ?_, ?_, ?_, ?_, ?_, ?_⟩
    · intro _ v hv
      rw [hfatal] at hv
      simp at hv
    · intro _ v hv
      rw [hfatal] at hv
      simp at hv
    · intro _ v hv
      rw [hfatal] at hv
      simp at hv
    · intro _ v hv
      rw [hfatal] at hv
      simp at hv
    · intro _ v hv
      rw [hfatal] at hv
      simp at hv
    · intro q v v' hv _
      rw [hfatal] at hv
      simp at hv
    · intro p v v' hv _
      rw [hfatal] at hv
      simp at hv
    · intro c v v' hv _
      rw [hfatal] at hv
      simp at hv
    · intro d v v' hv _
      rw [hfatal] at hv
      simp at hv
    · intro w v v' hv _
      rw [hfatal] at hv
      simp at hv
  · have hnn : st.circuits ≠ none ∧ st.races ≠ none := by
      rw [Bool.or_eq_true] at hfat
      push_neg at hfat
      constructor
      · intro hc
        exact absurd (by rw [hc]; rfl) hfat.1
      · intro hc
        exact absurd (by rw [hc]; rfl) hfat.2
    have hpage : ∀ st' : LoadState, st'.circuits = st.circuits →
        st'.races = st.races → renderDashboard st' sec = .page
        { phase1 := if sec = .overview ∨ sec = .phase1 then .rendered else .hidden
          phase2 :=
            if (sec = .overview ∨ sec = .phase2) ∧ st'.pit_stops.isSome then
              .rendered
            else .hidden
          phase3 :=
            if (sec = .overview ∨ sec = .phase3) ∧ st'.results.isSome then
              (if st'.constructors.isNone then .warned else .rendered)
            else .hidden
          phase4 :=
            if (sec = .overview ∨ sec = .phase4) ∧ st'.qualifying.isSome
                ∧ st'.results.isSome then
              (if st'.drivers.isNone then .warned else .rendered)
            else .hidden
          phase5 :=
            if sec = .overview ∨ sec = .phase5 then
              (if st'.lap_times.isNone then .warned else .rendered)
            else .hidden } := by
      intro st' hc hr
      unfold renderDashboard
      rw [if_neg (by rw [hc, hr]; exact hfat)]
    have hself := hpage st rfl rfl
    refine ⟨?_, ?_, ?_, ?_, ?_, ?_, ?_, ?_, ?_, ?_, ?_⟩
    · rw [hself]
      constructor
      · intro h
        cases h
      · rintro (h | h)
        · exact absurd h hnn.1
        · exact absurd h hnn.2
    · intro hq v hv
      rw [hself] at hv
      cases hv
      have : st.qualifying.isSome = false := by rw [hq]; rfl
      simp [this]
    · intro hps v hv
      rw [hself] at hv
      cases hv
      have : st.pit_stops.isSome = false := by rw [hps]; rfl
      simp [this]
    · intro hcon v hv
      rw [hself] at hv
      cases hv
      by_cases hg : (sec = DashSection.overview ∨ sec = DashSection.phase3)
          ∧ st.results.isSome = true
      · right
        simp only [if_pos hg]
        rw [if_pos (by rw [hcon]; rfl)]
      · left
        simp only [if_neg hg]
    · intro hdr v hv
      rw [hself] at hv
      cases hv
      by_cases hg : (sec = DashSection.overview ∨ sec = DashSection.phase4)
          ∧ st.qualifying.isSome = true ∧ st.results.isSome = true
      · right
        simp only [if_pos hg]
        rw [if_pos (by rw [hdr]; rfl)]
      · left
        simp only [if_neg hg]
    · intro hlt v hv
      rw [hself] at hv
      cases hv
      by_cases hg : sec = DashSection.overview ∨ sec = DashSection.phase5
      · right
        simp only [if_pos hg]
        rw [if_pos (by rw [hlt]; rfl)]
      · left
        simp only [if_neg hg]
    · intro q v v' hv hv'
      rw [hself] at hv
      cases hv
      rw [hpage { st with qualifying := q } rfl rfl] at hv'
      cases hv'
      exact ⟨rfl, rfl, rfl, rfl⟩
    · intro p v v' hv hv'
      rw [hself] at hv
      cases hv
      rw [hpage { st with pit_stops := p } rfl rfl] at hv'
      cases hv'
      exact ⟨rfl, rfl, rfl, rfl⟩
    · intro c v v' hv hv'
      rw [hself] at hv
      cases hv
      rw [hpage { st with constructors := c } rfl rfl] at hv'
      cases hv'
      exact ⟨rfl, rfl, rfl, rfl⟩
    · intro d v v' hv hv'
      rw [hself] at hv
      cases hv
      rw [hpage { st with drivers := d } rfl rfl] at hv'
      cases hv'
      exact ⟨rfl, rfl, rfl, rfl⟩
    · intro w v v' hv hv'
      rw [hself] at hv
      cases hv
      rw [hpage { st with lap_times := w } rfl rfl] at hv'
      cases hv'
      exact ⟨rfl, rfl, rfl, rfl⟩

/-- A load state whose only failing file is the optional qualifying file. -/
def c1state : LoadState :=
  { circuits := some ⟨[]⟩, races := some ⟨[]⟩, pit_stops := some ⟨[]⟩,
    constructors := some ⟨[]⟩, results := some ⟨[]⟩, qualifying := none,
    drivers := some ⟨[]⟩, lap_times := some ⟨[]⟩ }

/-- The page `renderDashboard` produces for `c1state` on the overview. -/
def c1view : PageView :=
  { phase1 := .rendered, phase2 := .rendered, phase3 := .rendered,
    phase4 := .hidden, phase5 := .rendered }

/-- Witness for C1: with only the qualifying file missing, the
qualifying-vs-race section is hidden. -/
theorem C1_two_tier_error_policy_witness :
    c1view.phase4 = SectionStatus.hidden :=
  (C1_two_tier_error_policy c1state DashSection.overview).2.1 rfl c1view
    (by decide)
